import Mathlib

/-!
Verification of the TikTokDetection repository.

The development shallowly embeds the two source files:

* `douyin_check.py` — the classifier `check_douyin_jump` / `check_weibo_jump`:
  a pure function from the outcome of one HTTP GET (transport failure, or a
  response with status code, optional redirect-target header and body) to a
  `CheckResult`.
* `douyin_checker_gui.py` — `extract_domains_from_text` and the worker pool
  `WorkerManager` (`start`, `_thread_entry`, `_worker_loop`, `pause`,
  `resume`, `stop`), embedded as a small-step transition relation over an
  explicit pool state, with one transition per atomic action of a worker or
  of the control plane.
-/

namespace TTD

/-! ### HTTP model

`check_douyin_jump` performs one `requests.get` which either raises a
`RequestException` (carrying a message) or yields a response with a status
code, headers (of which only the redirect-target header is consulted) and a
body (`resp.text`, possibly `None`). -/

structure HTTPResponse where
  status_code : Nat
  location : Option String
  body : Option String
  deriving DecidableEq, Repr

inductive HTTPOutcome where
  | failure (exc : String)
  | success (resp : HTTPResponse)
  deriving DecidableEq, Repr

/-- The four result shapes returned by the classifier dictionaries. -/
inductive CheckResult where
  | error (msg : String)
  | ok (redirect_to : String) (http_status : Nat)
  | blocked (keywords : List String) (http_status : Nat)
  | unknown (http_status : Nat)
  deriving DecidableEq, Repr

/-- Predicate `listStarts kw l`: `kw` is an initial segment of `l`. -/
def listStarts : List Char → List Char → Bool
  | [], _ => true
  | _ :: _, [] => false
  | a :: as, b :: bs => a == b && listStarts as bs

/-- Substring test on character lists. -/
def listHasSub (kw : List Char) : List Char → Bool
  | [] => kw.isEmpty
  | c :: rest => listStarts kw (c :: rest) || listHasSub kw rest

/-- Python `kw in text` (exact, case-sensitive substring containment). -/
def pyIn (kw text : String) : Bool :=
  listHasSub kw.data text.data

/-- Douyin block keywords: 命中这些关键字视为拦截状态. -/
def DOUYIN_BLOCK_KEYWORDS : List String :=
  ["第三方网页", "停止", "已终止访问该网页"]

/-- Function `check_douyin_jump`, as a function of the outcome of its single GET. -/
def check_douyin_jump (o : HTTPOutcome) : CheckResult :=
  match o with
  | .failure exc => .error exc
  | .success resp =>
    let status_code := resp.status_code
    if 300 ≤ status_code ∧ status_code < 400 ∧ resp.location.isSome then
      .ok (resp.location.getD ("")) status_code
    else
      let text := resp.body.getD ("")
      let hit_keywords := DOUYIN_BLOCK_KEYWORDS.filter (fun kw => pyIn kw text)
      if hit_keywords ≠ [] then
        .blocked hit_keywords status_code
      else
        .unknown status_code

/-- The keyword list bound locally inside `check_weibo_jump`. -/
def weibo_block_keywords : List String :=
  ["将要访问", "已停止访问"]

/-- Function `check_weibo_jump`, as a function of the outcome of its single GET. -/
def check_weibo_jump (o : HTTPOutcome) : CheckResult :=
  match o with
  | .failure exc => .error exc
  | .success resp =>
    let status_code := resp.status_code
    if 300 ≤ status_code ∧ status_code < 400 ∧ resp.location.isSome then
      .ok (resp.location.getD ("")) status_code
    else
      let text := resp.body.getD ("")
      let hit_keywords := weibo_block_keywords.filter (fun kw => pyIn kw text)
      if hit_keywords ≠ [] then
        .blocked hit_keywords status_code
      else
        .unknown status_code

/-- Decision table exactly as the specification words it, first match wins:
network failure ↦ Error; 3xx with redirect-target header ↦ Ok; body
containing at least one provider block keyword ↦ Blocked (all keywords
found, in declared order); otherwise ↦ Unknown. -/
def classifierSpec (keywords : List String) (o : HTTPOutcome) : CheckResult :=
  match o with
  | .failure exc => .error exc
  | .success resp =>
    if 300 ≤ resp.status_code ∧ resp.status_code < 400 ∧ resp.location.isSome then
      .ok (resp.location.getD ("")) resp.status_code
    else if (keywords.filter (fun kw => pyIn kw (resp.body.getD ("")))) ≠ [] then
      .blocked (keywords.filter (fun kw => pyIn kw (resp.body.getD ("")))) resp.status_code
    else
      .unknown resp.status_code

/-! ### Domain extraction (`extract_domains_from_text`) -/

/-- Python `str.lower`, character by character. -/
def pyLower (s : String) : String :=
  ⟨s.data.map Char.toLower⟩

/-- The loop body of `extract_domains_from_text`: walk the regex matches,
lowercase each, skip those already seen, output first occurrences in order. -/
def extractGo : List String → List String → List String
  | [], _ => []
  | m :: rest, seen =>
    let domain := pyLower m
    if domain ∈ seen then extractGo rest seen
    else domain :: extractGo rest (domain :: seen)

/-- Function `extract_domains_from_text`, taking the list of regex matches of
`DOMAIN_REGEX.findall` (the regex engine is an external collaborator). -/
def extract_domains_from_text (ms : List String) : List String :=
  extractGo ms []

/-- First-occurrence deduplication as the claim words it: keep each
element's first occurrence, drop later duplicates. -/
def dedupFirstSpec : List String → List String
  | [] => []
  | a :: l => a :: dedupFirstSpec (l.filter (fun x => decide (x ≠ a)))
termination_by l => l.length
decreasing_by
  simp only [List.length_cons]
  exact Nat.lt_succ_of_le (List.length_filter_le _ _)

/-! ### Lemmas about the pure collaborators -/

theorem toLower_isUpper_false (c : Char) : (Char.toLower c).isUpper = false := by
  unfold Char.toLower
  by_cases h : c.toNat ≥ 65 ∧ c.toNat ≤ 90
  · rw [if_pos h]
    obtain ⟨h1, h2⟩ := h
    have hv : (c.toNat + 32).isValidChar := by left; omega
    have he : Char.ofNat (c.toNat + 32) = Char.ofNatAux (c.toNat + 32) hv := by
      unfold Char.ofNat
      simp [hv]
    rw [he]
    simp only [Char.isUpper, Char.ofNatAux]
    rw [Bool.and_eq_false_iff]
    right
    simp only [decide_eq_false_iff_not]
    intro hle
    rw [UInt32.le_def, BitVec.le_def] at hle
    simp at hle
    omega
  · rw [if_neg h]
    simp only [Char.isUpper]
    rw [Bool.and_eq_false_iff]
    by_cases h65 : (65 : UInt32) ≤ c.val
    · right
      simp only [decide_eq_false_iff_not]
      intro hle
      apply h
      constructor
      · rw [UInt32.le_def, BitVec.le_def] at h65
        simp at h65
        simp [Char.toNat, UInt32.toNat]
        omega
      · rw [UInt32.le_def, BitVec.le_def] at hle
        simp at hle
        simp [Char.toNat, UInt32.toNat]
        omega
    · left
      simpa using h65

theorem mem_dedupFirstSpec {x : String} :
    ∀ {l : List String}, x ∈ dedupFirstSpec l ↔ x ∈ l := by
  intro l
  induction l using dedupFirstSpec.induct with
  | case1 => simp [dedupFirstSpec]
  | case2 a t ih =>
    rw [dedupFirstSpec]
    constructor
    · intro hx
      rcases List.mem_cons.1 hx with h | h
      · exact h ▸ List.mem_cons_self _ _
      · have := List.mem_filter.1 (ih.1 h)
        exact List.mem_cons.2 (Or.inr this.1)
    · intro hx
      rcases List.mem_cons.1 hx with h | h
      · exact h ▸ List.mem_cons_self _ _
      · by_cases hxa : x = a
        · exact hxa ▸ List.mem_cons_self _ _
        · refine List.mem_cons.2 (Or.inr (ih.2 ?_))
          exact List.mem_filter.2 ⟨h, by simp [hxa]⟩

theorem nodup_dedupFirstSpec : ∀ (l : List String), (dedupFirstSpec l).Nodup := by
  intro l
  induction l using dedupFirstSpec.induct with
  | case1 => simp [dedupFirstSpec]
  | case2 a t ih =>
    rw [dedupFirstSpec]
    refine List.nodup_cons.2 ⟨?_, ih⟩
    intro hmem
    have := List.mem_filter.1 (mem_dedupFirstSpec.1 hmem)
    simp at this

theorem extractGo_eq (ms : List String) :
    ∀ seen : List String,
      extractGo ms seen
        = dedupFirstSpec ((ms.map pyLower).filter (fun x => decide (x ∉ seen))) := by
  induction ms with
  | nil => intro seen; simp [extractGo, dedupFirstSpec]
  | cons m rest ih =>
    intro seen
    rw [extractGo]
    simp only [List.map_cons, List.filter_cons]
    by_cases h : pyLower m ∈ seen
    · rw [if_pos h, if_neg (by simp [h])]
      exact ih seen
    · rw [if_neg h, if_pos (by simp [h])]
      rw [dedupFirstSpec, List.filter_filter]
      congr 1
      rw [ih (pyLower m :: seen)]
      congr 1
      apply List.filter_congr
      intro x _
      by_cases hx1 : x = pyLower m <;> by_cases hx2 : x ∈ seen <;>
        simp [hx1, hx2]

/-! ### Claim theorems for the classifier and the extractor -/

/-- Claim C1: for every HTTP outcome, both providers' classifiers decide in
the fixed order of the specification, first match winning: transport failure
↦ Error with the message; response status in [300,400) with a
redirect-target header ↦ Ok carrying the header value and the status code;
a body containing at least one provider block keyword ↦ Blocked; otherwise
↦ Unknown with the status code. -/
theorem claim_C1 (o : HTTPOutcome) :
    check_douyin_jump o = classifierSpec DOUYIN_BLOCK_KEYWORDS o ∧
    check_weibo_jump o = classifierSpec weibo_block_keywords o := by
  cases o with
  | failure exc => exact ⟨rfl, rfl⟩
  | success resp =>
    constructor
    · rw [check_douyin_jump, classifierSpec]
    · rw [check_weibo_jump, classifierSpec]

/-- Claim C6: whenever a response is classified Blocked, the reported
keyword list is exactly the provider's block keywords occurring as
substrings of the body, kept in the provider's declared order (a sublist of
the declared list), and it is never empty. -/
theorem claim_C6 (resp : HTTPResponse) (kws : List String) (hs : Nat) :
    (check_douyin_jump (HTTPOutcome.success resp) = CheckResult.blocked kws hs →
      kws = DOUYIN_BLOCK_KEYWORDS.filter (fun kw => pyIn kw (resp.body.getD (""))) ∧
      kws ≠ [] ∧ List.Sublist kws DOUYIN_BLOCK_KEYWORDS) ∧
    (check_weibo_jump (HTTPOutcome.success resp) = CheckResult.blocked kws hs →
      kws = weibo_block_keywords.filter (fun kw => pyIn kw (resp.body.getD (""))) ∧
      kws ≠ [] ∧ List.Sublist kws weibo_block_keywords) := by
  constructor
  · intro h
    rw [check_douyin_jump] at h
    by_cases hred : 300 ≤ resp.status_code ∧ resp.status_code < 400 ∧ resp.location.isSome
    · rw [if_pos hred] at h; cases h
    · rw [if_neg hred] at h
      by_cases hkw :
          DOUYIN_BLOCK_KEYWORDS.filter (fun kw => pyIn kw (resp.body.getD (""))) ≠ []
      · rw [if_pos hkw] at h
        cases h
        exact ⟨rfl, hkw, List.filter_sublist _⟩
      · rw [if_neg hkw] at h; cases h
  · intro h
    rw [check_weibo_jump] at h
    by_cases hred : 300 ≤ resp.status_code ∧ resp.status_code < 400 ∧ resp.location.isSome
    · rw [if_pos hred] at h; cases h
    · rw [if_neg hred] at h
      by_cases hkw :
          weibo_block_keywords.filter (fun kw => pyIn kw (resp.body.getD (""))) ≠ []
      · rw [if_pos hkw] at h
        cases h
        exact ⟨rfl, hkw, List.filter_sublist _⟩
      · rw [if_neg hkw] at h; cases h

/-- Witness for C6 at a concrete blocked response. -/
theorem claim_C6_witness :
    ["已终止访问该网页"]
      = DOUYIN_BLOCK_KEYWORDS.filter
          (fun kw => pyIn kw ((some "内容已终止访问该网页了" : Option String).getD (""))) ∧
    ["已终止访问该网页"] ≠ [] ∧
    List.Sublist ["已终止访问该网页"] DOUYIN_BLOCK_KEYWORDS :=
  (claim_C6 ⟨200, none, some "内容已终止访问该网页了"⟩ ["已终止访问该网页"] 200).1
    (by decide)

/-- Claim C10: the extractor returns the regex matches lowercased, with
duplicates removed keeping each domain's first occurrence in
first-occurrence order; the result has no duplicates and no uppercase
letters, and contains exactly the lowercased matches. -/
theorem claim_C10 (ms : List String) :
    extract_domains_from_text ms = dedupFirstSpec (ms.map pyLower) ∧
    (extract_domains_from_text ms).Nodup ∧
    (∀ d, d ∈ extract_domains_from_text ms ↔ d ∈ ms.map pyLower) ∧
    (∀ d ∈ extract_domains_from_text ms, ∀ c ∈ d.data, c.isUpper = false) := by
  have hmain : extract_domains_from_text ms = dedupFirstSpec (ms.map pyLower) := by
    rw [extract_domains_from_text, extractGo_eq]
    congr 1
    have : ∀ x ∈ ms.map pyLower, (decide (x ∉ ([] : List String))) = true := by
      intro x _; simp
    calc (ms.map pyLower).filter (fun x => decide (x ∉ ([] : List String)))
        = (ms.map pyLower).filter (fun _ => true) := List.filter_congr this
      _ = ms.map pyLower := List.filter_true _
  refine ⟨hmain, ?_, ?_, ?_⟩
  · rw [hmain]; exact nodup_dedupFirstSpec _
  · intro d; rw [hmain]; exact mem_dedupFirstSpec
  · intro d hd c hc
    have hd' : d ∈ ms.map pyLower := by
      rw [hmain] at hd; exact mem_dedupFirstSpec.1 hd
    obtain ⟨m, _, rfl⟩ := List.mem_map.1 hd'
    simp only [pyLower] at hc
    obtain ⟨c0, _, rfl⟩ := List.mem_map.1 hc
    exact toLower_isUpper_false c0

/-! ### Worker pool (`WorkerManager`)

The pool is embedded as a small-step transition system.  A pool state
carries the shared mutable data of a `WorkerManager` instance (queue,
counters, control flags, live-thread counter) together with one local
program phase per spawned worker thread and ghost event counters for the
signals emitted to the sink.  Each transition is one atomic action of the
source: evaluating the outer `while not stop` test, the non-blocking
`get_nowait` pop (reached only when pause is clear or stop is set, matching
the inner pause-wait loop), completing one classification call together
with the locked counter update and the emissions that follow it, the locked
exit path of `_thread_entry` (decrement, and `finished` emission when the
counter reaches zero), and the control-plane calls `stop`, `pause`,
`resume`. -/

/-- The classification status strings used by the worker loop. -/
inductive Status where
  | ok
  | blocked
  | unknown
  | error
  deriving DecidableEq, Repr

/-- Local phase of one worker thread inside `_worker_loop`:
about to evaluate the outer stop test; past that test (inside the
pause-wait / about to pop); holding a popped URL during the classification
call; or exited (loop left and live counter decremented). -/
inductive WPhase where
  | atLoop
  | postCheck
  | inFlight (u : String)
  | exited
  deriving DecidableEq, Repr

/-- The URL a worker currently holds, if any. -/
def taskOf : WPhase → Option String
  | .inFlight u => some u
  | _ => none

/-- A worker that has not yet decremented the live counter. -/
def isLive : WPhase → Bool
  | .exited => false
  | _ => true

/-- Shared state of one `WorkerManager` plus per-worker phases and ghost
counts of emitted events. -/
structure Pool where
  mode : String
  queue : List String
  workers : List WPhase
  total : Nat
  checked : Nat
  normal : Nat
  blocked : Nat
  active : Nat
  stopped : Bool
  paused : Bool
  finishedEmits : Nat
  resultEmits : Nat
  statsLog : List (Nat × Nat × Nat × Nat)
  deriving DecidableEq, Repr

/-- State built by `WorkerManager.__init__`. -/
def poolInit : Pool :=
  { mode := "douyin", queue := [], workers := [], total := 0, checked := 0,
    normal := 0, blocked := 0, active := 0, stopped := false, paused := false,
    finishedEmits := 0, resultEmits := 0, statsLog := [] }

def modeDouyin : String := "douyin"

def modeWeibo : String := "weibo"

/-- The provider dispatch inside `_worker_loop`: `check_douyin_jump` for
mode `douyin`, `check_weibo_jump` for mode `weibo`, and for any other mode
the raised `ValueError` is caught by the surrounding `except`, yielding
status `error`.  The per-URL classification outcomes of the two providers
are the oracles `od` and `ow`. -/
def dispatch (od ow : String → Status) (m : String) (u : String) : Status :=
  if m = modeDouyin then od u
  else if m = modeWeibo then ow u
  else Status.error

/-- Method `WorkerManager.start`: reset the counters, set the mode, clear both
flags, replace the queue contents by the new task list in order, and spawn
`num_threads` fresh workers, with the live counter set to `num_threads`. -/
def start (s : Pool) (urls : List String) (num_threads : Nat) (mode : String) : Pool :=
  { s with
    total := urls.length, checked := 0, normal := 0, blocked := 0,
    mode := mode,
    stopped := false, paused := false,
    queue := urls,
    workers := List.replicate num_threads WPhase.atLoop,
    active := num_threads,
    finishedEmits := 0, resultEmits := 0, statsLog := [] }

/-- Worker `i` passes the outer stop test. -/
def toPost (i : Nat) (s : Pool) : Pool :=
  { s with workers := s.workers.set i WPhase.postCheck }

/-- Worker `i` leaves `_worker_loop`; the `finally` block of `_thread_entry`
decrements the live counter under the lock and emits `finished` when it
reaches zero. -/
def exitW (i : Nat) (s : Pool) : Pool :=
  { s with workers := s.workers.set i WPhase.exited,
           active := s.active - 1,
           finishedEmits :=
             if s.active - 1 = 0 then s.finishedEmits + 1 else s.finishedEmits }

/-- Worker `i` pops the queue head `u` without blocking. -/
def toFlight (i : Nat) (u : String) (s : Pool) : Pool :=
  { s with workers := s.workers.set i (WPhase.inFlight u), queue := s.queue.tail }

/-- Worker `i` finishes the classification of `u`: under the lock, `checked`
is incremented, `normal`/`blocked` are incremented according to the status,
and a snapshot is taken; the per-task result and the snapshot are then
emitted. -/
def finishW (od ow : String → Status) (i : Nat) (u : String) (s : Pool) : Pool :=
  let st := dispatch od ow s.mode u
  { s with workers := s.workers.set i WPhase.atLoop,
           checked := s.checked + 1,
           normal := s.normal + (if st = Status.ok then 1 else 0),
           blocked := s.blocked + (if st = Status.blocked then 1 else 0),
           resultEmits := s.resultEmits + 1,
           statsLog := (s.total, s.checked + 1,
                        s.normal + (if st = Status.ok then 1 else 0),
                        s.blocked + (if st = Status.blocked then 1 else 0))
                       :: s.statsLog }

/-- Method `WorkerManager.stop`: set the stop flag, clear the pause flag. -/
def stopStep (s : Pool) : Pool :=
  { s with stopped := true, paused := false }

/-- Method `WorkerManager.pause`. -/
def pauseStep (s : Pool) : Pool :=
  { s with paused := true }

/-- Method `WorkerManager.resume`. -/
def resumeStep (s : Pool) : Pool :=
  { s with paused := false }

/-- One atomic action of a worker or of the control plane.  A worker at
`postCheck` whose pool is paused (and not stopped) has no action: it sits in
the inner sleep loop.  The pop happens after the pause wait with no second
stop test, exactly as in the source. -/
inductive Step (od ow : String → Status) : Pool → Pool → Prop
  | checkStopFalse (s : Pool) (i : Nat)
      (hw : s.workers.get? i = some WPhase.atLoop) (hs : s.stopped = false) :
      Step od ow s (toPost i s)
  | checkStopTrue (s : Pool) (i : Nat)
      (hw : s.workers.get? i = some WPhase.atLoop) (hs : s.stopped = true) :
      Step od ow s (exitW i s)
  | popTask (s : Pool) (i : Nat) (u : String) (q : List String)
      (hw : s.workers.get? i = some WPhase.postCheck)
      (hp : s.paused = false ∨ s.stopped = true)
      (hq : s.queue = u :: q) :
      Step od ow s (toFlight i u s)
  | popEmpty (s : Pool) (i : Nat)
      (hw : s.workers.get? i = some WPhase.postCheck)
      (hp : s.paused = false ∨ s.stopped = true)
      (hq : s.queue = []) :
      Step od ow s (exitW i s)
  | finishTask (s : Pool) (i : Nat) (u : String)
      (hw : s.workers.get? i = some (WPhase.inFlight u)) :
      Step od ow s (finishW od ow i u s)
  | ctlStop (s : Pool) : Step od ow s (stopStep s)
  | ctlPause (s : Pool) : Step od ow s (pauseStep s)
  | ctlResume (s : Pool) : Step od ow s (resumeStep s)

/-- Finitely many interleaved steps. -/
def Steps (od ow : String → Status) : Pool → Pool → Prop :=
  Relation.ReflTransGen (Step od ow)

/-- Steps of a run during which `stop()` is never called. -/
def StepsNoStop (od ow : String → Status) : Pool → Pool → Prop :=
  Relation.ReflTransGen (fun s t => Step od ow s t ∧ t.stopped = false)

/-- Steps of a run during which neither `stop()` nor `pause()` is called. -/
def StepsNoCtl (od ow : String → Status) : Pool → Pool → Prop :=
  Relation.ReflTransGen
    (fun s t => Step od ow s t ∧ t.stopped = false ∧ t.paused = false)

/-- URLs currently held by in-flight workers. -/
def inFlightL (ws : List WPhase) : List String :=
  ws.filterMap taskOf

/-- Number of URLs in `l` that the run classifies with status `t`. -/
def countSt (g : String → Status) (t : Status) (l : List String) : Nat :=
  l.countP (fun u => decide (g u = t))

/-- Number of URLs in `l` classified `ok` or `blocked`. -/
def countOB (g : String → Status) (l : List String) : Nat :=
  l.countP (fun u => decide (g u = Status.ok) || decide (g u = Status.blocked))

/-- All spawned workers have exited. -/
def allExited (s : Pool) : Prop :=
  s.workers.countP isLive = 0

/-- Progress measure: every worker action strictly decreases it. -/
def phaseW : WPhase → Nat
  | .atLoop => 2
  | .postCheck => 1
  | .inFlight _ => 3
  | .exited => 0

def poolMeasure (s : Pool) : Nat :=
  3 * s.queue.length + (s.workers.map phaseW).sum

/-! ### Effect of updating one worker phase on the derived counts -/

theorem inFlightL_cons (w : WPhase) (t : List WPhase) :
    inFlightL (w :: t) = (taskOf w).toList ++ inFlightL t := by
  cases w <;> simp [inFlightL, taskOf]

theorem countP_set_phase (p : WPhase → Bool) :
    ∀ (ws : List WPhase) (i : Nat) (w w' : WPhase), ws.get? i = some w →
      (ws.set i w').countP p + (if p w then 1 else 0)
        = ws.countP p + (if p w' then 1 else 0) := by
  intro ws
  induction ws with
  | nil => intro i w w' h; simp at h
  | cons a t ih =>
    intro i w w' h
    cases i with
    | zero =>
      simp only [List.get?_cons_zero, Option.some.injEq] at h
      subst h
      simp only [List.set_cons_zero, List.countP_cons]
      omega
    | succ n =>
      simp only [List.get?_cons_succ] at h
      simp only [List.set_cons_succ, List.countP_cons]
      have := ih n w w' h
      omega

theorem sum_map_set (g : WPhase → Nat) :
    ∀ (ws : List WPhase) (i : Nat) (w w' : WPhase), ws.get? i = some w →
      ((ws.set i w').map g).sum + g w = (ws.map g).sum + g w' := by
  intro ws
  induction ws with
  | nil => intro i w w' h; simp at h
  | cons a t ih =>
    intro i w w' h
    cases i with
    | zero =>
      simp only [List.get?_cons_zero, Option.some.injEq] at h
      subst h
      simp only [List.set_cons_zero, List.map_cons, List.sum_cons]
      omega
    | succ n =>
      simp only [List.get?_cons_succ] at h
      simp only [List.set_cons_succ, List.map_cons, List.sum_cons]
      have := ih n w w' h
      omega

theorem countP_inFlightL_set (p : String → Bool) :
    ∀ (ws : List WPhase) (i : Nat) (w w' : WPhase), ws.get? i = some w →
      (inFlightL (ws.set i w')).countP p + ((taskOf w).toList).countP p
        = (inFlightL ws).countP p + ((taskOf w').toList).countP p := by
  intro ws
  induction ws with
  | nil => intro i w w' h; simp at h
  | cons a t ih =>
    intro i w w' h
    cases i with
    | zero =>
      simp only [List.get?_cons_zero, Option.some.injEq] at h
      subst h
      simp only [List.set_cons_zero, inFlightL_cons, List.countP_append]
      omega
    | succ n =>
      simp only [List.get?_cons_succ] at h
      simp only [List.set_cons_succ, inFlightL_cons, List.countP_append]
      have := ih n w w' h
      omega

theorem length_inFlightL_set (ws : List WPhase) (i : Nat) (w w' : WPhase)
    (h : ws.get? i = some w) :
    (inFlightL (ws.set i w')).length + ((taskOf w).toList).length
      = (inFlightL ws).length + ((taskOf w').toList).length := by
  have h1 := countP_inFlightL_set (fun _ => true) ws i w w' h
  simpa [List.countP_true] using h1

theorem countOB_eq (g : String → Status) : ∀ l : List String,
    countOB g l = countSt g Status.ok l + countSt g Status.blocked l := by
  intro l
  induction l with
  | nil => rfl
  | cons a t ih =>
    simp only [countOB, countSt, List.countP_cons] at ih ⊢
    cases hga : g a <;> simp [hga] <;> omega

theorem bounds_aux (g : String → Status) (urls : List String)
    (checked normal blocked : Nat) (F : List String) (k : Nat)
    (hk : k ≤ urls.length)
    (hc : checked + F.length = k)
    (hn : normal + countSt g Status.ok F = countSt g Status.ok (urls.take k))
    (hb : blocked + countSt g Status.blocked F
            = countSt g Status.blocked (urls.take k))
    (hob : countOB g (urls.take k) + F.length ≤ k + countOB g F) :
    checked ≤ urls.length ∧ normal + blocked ≤ checked := by
  have h1 := countOB_eq g (urls.take k)
  have h2 := countOB_eq g F
  omega

theorem take_drop_succ {α : Type} :
    ∀ (l : List α) (k : Nat) (u : α) (t : List α), l.drop k = u :: t →
      l.take (k + 1) = l.take k ++ [u] ∧ l.drop (k + 1) = t ∧ k + 1 ≤ l.length := by
  intro l
  induction l with
  | nil => intro k u t h; simp at h
  | cons a l' ih =>
    intro k u t h
    cases k with
    | zero =>
      simp only [List.drop_zero] at h
      injection h with h1 h2
      subst h1
      subst h2
      refine ⟨rfl, rfl, ?_⟩
      simp
    | succ kk =>
      simp only [List.drop_succ_cons] at h
      obtain ⟨h1, h2, h3⟩ := ih kk u t h
      refine ⟨?_, ?_, ?_⟩
      · simp [List.take_succ_cons, h1]
      · simpa [List.drop_succ_cons] using h2
      · simp only [List.length_cons]; omega

theorem inFlight_counts_eq {ws : List WPhase} {i : Nat} {w : WPhase} (w' : WPhase)
    (hw : ws.get? i = some w) (h1 : taskOf w = none) (h2 : taskOf w' = none)
    (p : String → Bool) :
    (inFlightL (ws.set i w')).countP p = (inFlightL ws).countP p := by
  have h := countP_inFlightL_set p ws i w w' hw
  rw [h1, h2] at h
  simpa using h

theorem inFlight_len_eq {ws : List WPhase} {i : Nat} {w : WPhase} (w' : WPhase)
    (hw : ws.get? i = some w) (h1 : taskOf w = none) (h2 : taskOf w' = none) :
    (inFlightL (ws.set i w')).length = (inFlightL ws).length := by
  have h := length_inFlightL_set ws i w w' hw
  rw [h1, h2] at h
  simpa using h

theorem inFlight_counts_add {ws : List WPhase} {i : Nat}
    (hw : ws.get? i = some WPhase.postCheck) (u : String) (p : String → Bool) :
    (inFlightL (ws.set i (WPhase.inFlight u))).countP p
      = (inFlightL ws).countP p + (if p u then 1 else 0) := by
  have h := countP_inFlightL_set p ws i WPhase.postCheck (WPhase.inFlight u) hw
  simp only [taskOf, Option.toList_some, Option.toList_none] at h
  simp only [List.countP_nil, List.countP_cons] at h
  omega

theorem inFlight_len_add {ws : List WPhase} {i : Nat}
    (hw : ws.get? i = some WPhase.postCheck) (u : String) :
    (inFlightL (ws.set i (WPhase.inFlight u))).length
      = (inFlightL ws).length + 1 := by
  have h := length_inFlightL_set ws i WPhase.postCheck (WPhase.inFlight u) hw
  simp only [taskOf, Option.toList_some, Option.toList_none] at h
  simp at h
  omega

theorem inFlight_counts_sub {ws : List WPhase} {i : Nat} {u : String}
    (hw : ws.get? i = some (WPhase.inFlight u)) (p : String → Bool) :
    (inFlightL (ws.set i WPhase.atLoop)).countP p + (if p u then 1 else 0)
      = (inFlightL ws).countP p := by
  have h := countP_inFlightL_set p ws i (WPhase.inFlight u) WPhase.atLoop hw
  simp only [taskOf, Option.toList_some, Option.toList_none] at h
  simp only [List.countP_nil, List.countP_cons] at h
  omega

theorem inFlight_len_sub {ws : List WPhase} {i : Nat} {u : String}
    (hw : ws.get? i = some (WPhase.inFlight u)) :
    (inFlightL (ws.set i WPhase.atLoop)).length + 1 = (inFlightL ws).length := by
  have h := length_inFlightL_set ws i (WPhase.inFlight u) WPhase.atLoop hw
  simp only [taskOf, Option.toList_some, Option.toList_none] at h
  simp at h
  omega

theorem inFlightL_replicate (n : Nat) :
    inFlightL (List.replicate n WPhase.atLoop) = [] := by
  induction n with
  | zero => rfl
  | succ nn ih => simp [List.replicate_succ, inFlightL_cons, taskOf, ih, inFlightL]

theorem countP_isLive_replicate (n : Nat) :
    (List.replicate n WPhase.atLoop).countP isLive = n := by
  induction n with
  | zero => rfl
  | succ nn ih => simp [List.replicate_succ, List.countP_cons, isLive, ih]

/-! ### The run invariant -/

/-- Invariant of every state reachable from `start s0 urls n m` with
`1 ≤ n`: the counters and the queue are in step with the set of tasks
already popped (the first `k` of `urls`), the live counter counts the
non-exited workers, `finished` has been emitted exactly when the live
counter is zero, and every emitted snapshot satisfies the stats bounds. -/
structure PoolInv (od ow : String → Status) (urls : List String) (n : Nat)
    (m : String) (s : Pool) : Prop where
  mode_eq : s.mode = m
  total_eq : s.total = urls.length
  wlen : s.workers.length = n
  active_eq : s.active = s.workers.countP isLive
  fin_eq : s.finishedEmits = if s.active = 0 then 1 else 0
  res_eq : s.resultEmits = s.checked
  slog_len : s.statsLog.length = s.checked
  slog_ok : ∀ x ∈ s.statsLog,
    x.1 = urls.length ∧ x.2.1 ≤ x.1 ∧ x.2.2.1 + x.2.2.2 ≤ x.2.1
  progress : ∃ k, k ≤ urls.length ∧ s.queue = urls.drop k ∧
    s.checked + (inFlightL s.workers).length = k ∧
    s.normal + countSt (dispatch od ow m) Status.ok (inFlightL s.workers)
      = countSt (dispatch od ow m) Status.ok (urls.take k) ∧
    s.blocked + countSt (dispatch od ow m) Status.blocked (inFlightL s.workers)
      = countSt (dispatch od ow m) Status.blocked (urls.take k) ∧
    countOB (dispatch od ow m) (urls.take k) + (inFlightL s.workers).length
      ≤ k + countOB (dispatch od ow m) (inFlightL s.workers)

theorem PoolInv.bounds {od ow : String → Status} {urls : List String} {n : Nat}
    {m : String} {s : Pool} (h : PoolInv od ow urls n m s) :
    s.checked ≤ s.total ∧ s.normal + s.blocked ≤ s.checked := by
  obtain ⟨k, hk, _, hc, hn, hb, hob⟩ := h.progress
  have := bounds_aux (dispatch od ow m) urls s.checked s.normal s.blocked
    (inFlightL s.workers) k hk hc hn hb hob
  rw [h.total_eq]
  exact this

theorem inv_start (od ow : String → Status) (s0 : Pool) (urls : List String)
    (n : Nat) (m : String) (hn : 1 ≤ n) :
    PoolInv od ow urls n m (start s0 urls n m) := by
  refine ⟨rfl, rfl, ?_, ?_, ?_, rfl, rfl, ?_, 0, ?_, ?_, ?_, ?_, ?_, ?_⟩
  · exact List.length_replicate n WPhase.atLoop
  · show n = (List.replicate n WPhase.atLoop).countP isLive
    rw [countP_isLive_replicate]
  · show (0 : Nat) = if n = 0 then 1 else 0
    rw [if_neg (by omega)]
  · intro x hx
    cases hx
  · omega
  · show urls = urls.drop 0
    rw [List.drop_zero]
  · show 0 + (inFlightL (List.replicate n WPhase.atLoop)).length = 0
    rw [inFlightL_replicate]
    rfl
  · show 0 + countSt (dispatch od ow m) Status.ok
        (inFlightL (List.replicate n WPhase.atLoop))
      = countSt (dispatch od ow m) Status.ok (urls.take 0)
    rw [inFlightL_replicate]
    rfl
  · show 0 + countSt (dispatch od ow m) Status.blocked
        (inFlightL (List.replicate n WPhase.atLoop))
      = countSt (dispatch od ow m) Status.blocked (urls.take 0)
    rw [inFlightL_replicate]
    rfl
  · show countOB (dispatch od ow m) (urls.take 0)
        + (inFlightL (List.replicate n WPhase.atLoop)).length
      ≤ 0 + countOB (dispatch od ow m) (inFlightL (List.replicate n WPhase.atLoop))
    rw [inFlightL_replicate]
    simp [countOB]

theorem inv_step {od ow : String → Status} {urls : List String} {n : Nat}
    {m : String} {s t : Pool} (hinv : PoolInv od ow urls n m s)
    (hstep : Step od ow s t) : PoolInv od ow urls n m t := by
  obtain ⟨hmode, htotal, hwlen, hactive, hfin, hres, hslen, hsok, hprog⟩ := hinv
  obtain ⟨k, hk, hq, hc, hn, hb, hob⟩ := hprog
  cases hstep with
  | checkStopFalse i hw hcs =>
    have h1 := countP_set_phase isLive s.workers i WPhase.atLoop WPhase.postCheck hw
    simp [isLive] at h1
    have hL := inFlight_len_eq WPhase.postCheck hw rfl rfl
    have hA := inFlight_counts_eq WPhase.postCheck hw rfl rfl
      (fun v => decide (dispatch od ow m v = Status.ok))
    have hB := inFlight_counts_eq WPhase.postCheck hw rfl rfl
      (fun v => decide (dispatch od ow m v = Status.blocked))
    have hOB := inFlight_counts_eq WPhase.postCheck hw rfl rfl
      (fun v => decide (dispatch od ow m v = Status.ok)
        || decide (dispatch od ow m v = Status.blocked))
    simp only [countSt, countOB] at hn hb hob
    refine ⟨hmode, htotal, ?_, ?_, hfin, hres, hslen, hsok, k, hk, hq, ?_, ?_, ?_, ?_⟩
    · show (s.workers.set i WPhase.postCheck).length = n
      rw [List.length_set]; exact hwlen
    · show s.active = (s.workers.set i WPhase.postCheck).countP isLive
      omega
    · show s.checked + (inFlightL (s.workers.set i WPhase.postCheck)).length = k
      omega
    · simp only [toPost, countSt, countOB]
      omega
    · simp only [toPost, countSt, countOB]
      omega
    · simp only [toPost, countSt, countOB]
      omega
  | checkStopTrue i hw hcs =>
    have h1 := countP_set_phase isLive s.workers i WPhase.atLoop WPhase.exited hw
    simp [isLive] at h1
    have hL := inFlight_len_eq WPhase.exited hw rfl rfl
    have hA := inFlight_counts_eq WPhase.exited hw rfl rfl
      (fun v => decide (dispatch od ow m v = Status.ok))
    have hB := inFlight_counts_eq WPhase.exited hw rfl rfl
      (fun v => decide (dispatch od ow m v = Status.blocked))
    have hOB := inFlight_counts_eq WPhase.exited hw rfl rfl
      (fun v => decide (dispatch od ow m v = Status.ok)
        || decide (dispatch od ow m v = Status.blocked))
    have hge : 1 ≤ s.active := by omega
    simp only [countSt, countOB] at hn hb hob
    refine ⟨hmode, htotal, ?_, ?_, ?_, hres, hslen, hsok, k, hk, hq, ?_, ?_, ?_, ?_⟩
    · show (s.workers.set i WPhase.exited).length = n
      rw [List.length_set]; exact hwlen
    · show s.active - 1 = (s.workers.set i WPhase.exited).countP isLive
      omega
    · show (if s.active - 1 = 0 then s.finishedEmits + 1 else s.finishedEmits)
        = if s.active - 1 = 0 then 1 else 0
      have hfin0 : s.finishedEmits = 0 := by
        rw [hfin, if_neg (by omega)]
      by_cases hz : s.active - 1 = 0
      · rw [if_pos hz, if_pos hz, hfin0]
      · rw [if_neg hz, if_neg hz, hfin0]
    · show s.checked + (inFlightL (s.workers.set i WPhase.exited)).length = k
      omega
    · simp only [exitW, countSt, countOB]
      omega
    · simp only [exitW, countSt, countOB]
      omega
    · simp only [exitW, countSt, countOB]
      omega
  | popTask i u q hw hp hq2 =>
    have hdrop : urls.drop k = u :: q := by rw [← hq, hq2]
    obtain ⟨ht1, ht2, ht3⟩ := take_drop_succ urls k u q hdrop
    have h1 := countP_set_phase isLive s.workers i WPhase.postCheck
      (WPhase.inFlight u) hw
    simp [isLive] at h1
    have hL := inFlight_len_add hw u
    have hA := inFlight_counts_add hw u
      (fun v => decide (dispatch od ow m v = Status.ok))
    have hB := inFlight_counts_add hw u
      (fun v => decide (dispatch od ow m v = Status.blocked))
    have hOB := inFlight_counts_add hw u
      (fun v => decide (dispatch od ow m v = Status.ok)
        || decide (dispatch od ow m v = Status.blocked))
    simp only [countSt, countOB] at hn hb hob
    refine ⟨hmode, htotal, ?_, ?_, hfin, hres, hslen, hsok, k + 1, ht3, ?_, ?_, ?_, ?_, ?_⟩
    · show (s.workers.set i (WPhase.inFlight u)).length = n
      rw [List.length_set]; exact hwlen
    · show s.active = (s.workers.set i (WPhase.inFlight u)).countP isLive
      omega
    · show s.queue.tail = urls.drop (k + 1)
      rw [hq2, ht2]
      rfl
    · show s.checked + (inFlightL (s.workers.set i (WPhase.inFlight u))).length = k + 1
      omega
    · rw [ht1]
      simp only [toFlight, countSt, countOB, List.countP_append, List.countP_cons,
        List.countP_nil]
      omega
    · rw [ht1]
      simp only [toFlight, countSt, countOB, List.countP_append, List.countP_cons,
        List.countP_nil]
      omega
    · rw [ht1]
      simp only [toFlight, countSt, countOB, List.countP_append, List.countP_cons,
        List.countP_nil]
      omega
  | popEmpty i hw hp hq2 =>
    have h1 := countP_set_phase isLive s.workers i WPhase.postCheck WPhase.exited hw
    simp [isLive] at h1
    have hL := inFlight_len_eq WPhase.exited hw rfl rfl
    have hA := inFlight_counts_eq WPhase.exited hw rfl rfl
      (fun v => decide (dispatch od ow m v = Status.ok))
    have hB := inFlight_counts_eq WPhase.exited hw rfl rfl
      (fun v => decide (dispatch od ow m v = Status.blocked))
    have hOB := inFlight_counts_eq WPhase.exited hw rfl rfl
      (fun v => decide (dispatch od ow m v = Status.ok)
        || decide (dispatch od ow m v = Status.blocked))
    have hge : 1 ≤ s.active := by omega
    simp only [countSt, countOB] at hn hb hob
    refine ⟨hmode, htotal, ?_, ?_, ?_, hres, hslen, hsok, k, hk, hq, ?_, ?_, ?_, ?_⟩
    · show (s.workers.set i WPhase.exited).length = n
      rw [List.length_set]; exact hwlen
    · show s.active - 1 = (s.workers.set i WPhase.exited).countP isLive
      omega
    · show (if s.active - 1 = 0 then s.finishedEmits + 1 else s.finishedEmits)
        = if s.active - 1 = 0 then 1 else 0
      have hfin0 : s.finishedEmits = 0 := by
        rw [hfin, if_neg (by omega)]
      by_cases hz : s.active - 1 = 0
      · rw [if_pos hz, if_pos hz, hfin0]
      · rw [if_neg hz, if_neg hz, hfin0]
    · show s.checked + (inFlightL (s.workers.set i WPhase.exited)).length = k
      omega
    · simp only [exitW, countSt, countOB]
      omega
    · simp only [exitW, countSt, countOB]
      omega
    · simp only [exitW, countSt, countOB]
      omega
  | finishTask i u hw =>
    have h1 := countP_set_phase isLive s.workers i (WPhase.inFlight u)
      WPhase.atLoop hw
    simp [isLive] at h1
    have hL := inFlight_len_sub hw
    have hA := inFlight_counts_sub hw
      (fun v => decide (dispatch od ow m v = Status.ok))
    have hB := inFlight_counts_sub hw
      (fun v => decide (dispatch od ow m v = Status.blocked))
    have hOB := inFlight_counts_sub hw
      (fun v => decide (dispatch od ow m v = Status.ok)
        || decide (dispatch od ow m v = Status.blocked))
    simp only [decide_eq_true_eq] at hA hB hOB
    simp only [countSt, countOB] at hn hb hob
    have hob2 := countOB_eq (dispatch od ow m) (urls.take k)
    have hob3 := countOB_eq (dispatch od ow m)
      (inFlightL (s.workers.set i WPhase.atLoop))
    simp only [countSt, countOB] at hob2 hob3
    have hite : (if (decide (dispatch od ow m u = Status.ok)
          || decide (dispatch od ow m u = Status.blocked)) = true then 1 else 0)
        = (if dispatch od ow m u = Status.ok then 1 else 0)
          + (if dispatch od ow m u = Status.blocked then 1 else 0) := by
      cases hst : dispatch od ow m u <;> simp
    have hlp : (if dispatch od ow m u = Status.ok then 1 else 0)
          + (if dispatch od ow m u = Status.blocked then 1 else 0) ≤ 1 := by
      cases hst : dispatch od ow m u <;> simp
    refine ⟨hmode, htotal, ?_, ?_, hfin, ?_, ?_, ?_, k, hk, hq, ?_, ?_, ?_, ?_⟩
    · show (s.workers.set i WPhase.atLoop).length = n
      rw [List.length_set]; exact hwlen
    · show s.active = (s.workers.set i WPhase.atLoop).countP isLive
      omega
    · show s.resultEmits + 1 = s.checked + 1
      omega
    · show s.statsLog.length + 1 = s.checked + 1
      omega
    · intro x hx
      rcases List.mem_cons.1 hx with hx1 | hx2
      · subst hx1
        rw [hmode]
        refine ⟨htotal, ?_, ?_⟩
        · show s.checked + 1 ≤ s.total
          omega
        · show s.normal + (if dispatch od ow m u = Status.ok then 1 else 0)
            + (s.blocked + (if dispatch od ow m u = Status.blocked then 1 else 0))
            ≤ s.checked + 1
          omega
      · exact hsok x hx2
    · show s.checked + 1 + (inFlightL (s.workers.set i WPhase.atLoop)).length = k
      omega
    · show s.normal + (if dispatch od ow s.mode u = Status.ok then 1 else 0)
        + countSt (dispatch od ow m) Status.ok
            (inFlightL (s.workers.set i WPhase.atLoop))
        = countSt (dispatch od ow m) Status.ok (urls.take k)
      rw [hmode]
      simp only [countSt]
      omega
    · show s.blocked + (if dispatch od ow s.mode u = Status.blocked then 1 else 0)
        + countSt (dispatch od ow m) Status.blocked
            (inFlightL (s.workers.set i WPhase.atLoop))
        = countSt (dispatch od ow m) Status.blocked (urls.take k)
      rw [hmode]
      simp only [countSt]
      omega
    · show countOB (dispatch od ow m) (urls.take k)
        + (inFlightL (s.workers.set i WPhase.atLoop)).length
        ≤ k + countOB (dispatch od ow m)
            (inFlightL (s.workers.set i WPhase.atLoop))
      simp only [countOB]
      omega
  | ctlStop =>
    exact ⟨hmode, htotal, hwlen, hactive, hfin, hres, hslen, hsok,
      k, hk, hq, hc, hn, hb, hob⟩
  | ctlPause =>
    exact ⟨hmode, htotal, hwlen, hactive, hfin, hres, hslen, hsok,
      k, hk, hq, hc, hn, hb, hob⟩
  | ctlResume =>
    exact ⟨hmode, htotal, hwlen, hactive, hfin, hres, hslen, hsok,
      k, hk, hq, hc, hn, hb, hob⟩

theorem steps_of_noStop {od ow : String → Status} {a b : Pool}
    (h : StepsNoStop od ow a b) : Steps od ow a b :=
  Relation.ReflTransGen.mono (fun _ _ hh => hh.1) h

theorem noStop_of_noCtl {od ow : String → Status} {a b : Pool}
    (h : StepsNoCtl od ow a b) : StepsNoStop od ow a b :=
  Relation.ReflTransGen.mono (fun _ _ hh => ⟨hh.1, hh.2.1⟩) h

theorem inv_mono {od ow : String → Status} {urls : List String} {n : Nat}
    {m : String} {a b : Pool} (ha : PoolInv od ow urls n m a)
    (h : Steps od ow a b) : PoolInv od ow urls n m b := by
  have h2 : Relation.ReflTransGen (Step od ow) a b := h
  clear h
  induction h2 with
  | refl => exact ha
  | tail _ h1 ih => exact inv_step ih h1

theorem inv_reachable {od ow : String → Status} {urls : List String} {n : Nat}
    {m : String} {s0 s : Pool} (hn : 1 ≤ n)
    (h : Steps od ow (start s0 urls n m) s) : PoolInv od ow urls n m s :=
  inv_mono (inv_start od ow s0 urls n m hn) h

theorem checked_le_step {od ow : String → Status} {s t : Pool}
    (h : Step od ow s t) : s.checked ≤ t.checked := by
  cases h <;> first
    | exact Nat.le_refl _
    | exact Nat.le_succ _

theorem checked_le_steps {od ow : String → Status} {a b : Pool}
    (h : Steps od ow a b) : a.checked ≤ b.checked := by
  have h2 : Relation.ReflTransGen (Step od ow) a b := h
  clear h
  induction h2 with
  | refl => exact Nat.le_refl _
  | tail _ h1 ih => exact le_trans ih (checked_le_step h1)

/-- Extra invariant of runs during which `stop()` is never called: the flag
stays clear, and workers only exit on an empty queue. -/
structure NSInv (s : Pool) : Prop where
  not_stopped : s.stopped = false
  drained : s.active = 0 → s.queue = []

theorem nsinv_step {od ow : String → Status} {s t : Pool} (hstep : Step od ow s t)
    (hts : t.stopped = false) (hs : NSInv s) : NSInv t := by
  cases hstep with
  | checkStopFalse i hw hcs => exact ⟨hts, hs.drained⟩
  | checkStopTrue i hw hcs =>
    rw [hs.not_stopped] at hcs
    simp at hcs
  | popTask i u q hw hp hq2 =>
    refine ⟨hts, fun h0 => ?_⟩
    have hq0 := hs.drained h0
    rw [hq2] at hq0
    exact absurd hq0 (List.cons_ne_nil u q)
  | popEmpty i hw hp hq2 =>
    exact ⟨hts, fun _ => hq2⟩
  | finishTask i u hw => exact ⟨hts, hs.drained⟩
  | ctlStop => simp [stopStep] at hts
  | ctlPause => exact ⟨hts, hs.drained⟩
  | ctlResume => exact ⟨hts, hs.drained⟩

theorem nsinv_mono {od ow : String → Status} {a b : Pool}
    (h : StepsNoStop od ow a b) (ha : NSInv a) : NSInv b := by
  have h2 : Relation.ReflTransGen (fun s t => Step od ow s t ∧ t.stopped = false)
      a b := h
  clear h
  induction h2 with
  | refl => exact ha
  | tail _ h1 ih => exact nsinv_step h1.1 h1.2 ih

theorem nsinv_start (s0 : Pool) (urls : List String) (n : Nat) (m : String)
    (hn : 1 ≤ n) : NSInv (start s0 urls n m) := by
  refine ⟨rfl, fun h0 => ?_⟩
  exact absurd (show n = 0 from h0) (by omega)

theorem inFlightL_eq_nil_of_exited {ws : List WPhase} (h : ws.countP isLive = 0) :
    inFlightL ws = [] := by
  rw [inFlightL, List.filterMap_eq_nil]
  intro w hw
  have h2 := List.countP_eq_zero.1 h w hw
  cases w with
  | atLoop => simp [isLive] at h2
  | postCheck => simp [isLive] at h2
  | inFlight u => simp [isLive] at h2
  | exited => rfl

/-- A completed stop-free run has counted everything: the final counters are
determined by the task list and the per-task outcomes alone. -/
theorem final_counts {od ow : String → Status} {urls : List String} {n : Nat}
    {m : String} {s0 s : Pool} (hn : 1 ≤ n)
    (h : StepsNoStop od ow (start s0 urls n m) s) (hex : allExited s) :
    s.total = urls.length ∧ s.checked = urls.length ∧
    s.normal = countSt (dispatch od ow m) Status.ok urls ∧
    s.blocked = countSt (dispatch od ow m) Status.blocked urls := by
  have hpool := inv_mono (inv_start od ow s0 urls n m hn) (steps_of_noStop h)
  have hns := nsinv_mono h (nsinv_start s0 urls n m hn)
  have hact0 : s.active = 0 := by rw [hpool.active_eq]; exact hex
  have hqnil : s.queue = [] := hns.drained hact0
  have hfl : inFlightL s.workers = [] := inFlightL_eq_nil_of_exited hex
  obtain ⟨k, hk, hq, hc, hn2, hb2, hob⟩ := hpool.progress
  have hkl : k = urls.length := by
    rw [hqnil] at hq
    have := List.drop_eq_nil_iff_le.1 hq.symm
    omega
  subst hkl
  rw [List.take_length] at hn2 hb2
  rw [hfl] at hc hn2 hb2
  refine ⟨hpool.total_eq, ?_, ?_, ?_⟩
  · simpa using hc
  · simpa [countSt] using hn2
  · simpa [countSt] using hb2

/-- From any reachable non-paused state the workers can run to completion on
their own: there is a finite continuation of steps after which all workers
have exited and `finished` has been emitted once.  This holds for every
outcome oracle, in particular when every task yields `error`. -/
theorem run_to_completion {od ow : String → Status} {urls : List String}
    {n : Nat} {m : String} :
    ∀ (N : Nat) (s : Pool), poolMeasure s = N → PoolInv od ow urls n m s →
      s.paused = false →
      ∃ t, Steps od ow s t ∧ allExited t ∧ t.finishedEmits = 1 := by
  intro N
  induction N using Nat.strong_induction_on with
  | _ N ih =>
    intro s hN hinv hp
    by_cases hex : s.workers.countP isLive = 0
    · refine ⟨s, Relation.ReflTransGen.refl, hex, ?_⟩
      rw [hinv.fin_eq, hinv.active_eq, if_pos hex]
    · have hpos : 0 < s.workers.countP isLive := Nat.pos_of_ne_zero hex
      obtain ⟨w, hwmem, hlive⟩ := List.countP_pos.1 hpos
      obtain ⟨i, hgi⟩ := List.mem_iff_get?.1 hwmem
      cases w with
      | atLoop =>
        cases hstop : s.stopped with
        | true =>
          have hstep : Step od ow s (exitW i s) := Step.checkStopTrue s i hgi hstop
          have hsum := sum_map_set phaseW s.workers i WPhase.atLoop WPhase.exited hgi
          have hm : poolMeasure (exitW i s) < N := by
            rw [← hN]
            show 3 * s.queue.length
                + ((s.workers.set i WPhase.exited).map phaseW).sum
              < 3 * s.queue.length + (s.workers.map phaseW).sum
            simp only [phaseW] at hsum
            omega
          obtain ⟨t, hsteps, hex2, hfin2⟩ := ih _ hm (exitW i s) rfl
            (inv_step hinv hstep) hp
          exact ⟨t, Relation.ReflTransGen.head hstep hsteps, hex2, hfin2⟩
        | false =>
          have hstep : Step od ow s (toPost i s) := Step.checkStopFalse s i hgi hstop
          have hsum := sum_map_set phaseW s.workers i WPhase.atLoop
            WPhase.postCheck hgi
          have hm : poolMeasure (toPost i s) < N := by
            rw [← hN]
            show 3 * s.queue.length
                + ((s.workers.set i WPhase.postCheck).map phaseW).sum
              < 3 * s.queue.length + (s.workers.map phaseW).sum
            simp only [phaseW] at hsum
            omega
          obtain ⟨t, hsteps, hex2, hfin2⟩ := ih _ hm (toPost i s) rfl
            (inv_step hinv hstep) hp
          exact ⟨t, Relation.ReflTransGen.head hstep hsteps, hex2, hfin2⟩
      | postCheck =>
        cases hqc : s.queue with
        | nil =>
          have hstep : Step od ow s (exitW i s) := Step.popEmpty s i hgi (Or.inl hp) hqc
          have hsum := sum_map_set phaseW s.workers i WPhase.postCheck
            WPhase.exited hgi
          have hm : poolMeasure (exitW i s) < N := by
            rw [← hN]
            show 3 * s.queue.length
                + ((s.workers.set i WPhase.exited).map phaseW).sum
              < 3 * s.queue.length + (s.workers.map phaseW).sum
            simp only [phaseW] at hsum
            omega
          obtain ⟨t, hsteps, hex2, hfin2⟩ := ih _ hm (exitW i s) rfl
            (inv_step hinv hstep) hp
          exact ⟨t, Relation.ReflTransGen.head hstep hsteps, hex2, hfin2⟩
        | cons u q =>
          have hstep : Step od ow s (toFlight i u s) :=
            Step.popTask s i u q hgi (Or.inl hp) hqc
          have hsum := sum_map_set phaseW s.workers i WPhase.postCheck
            (WPhase.inFlight u) hgi
          have hm : poolMeasure (toFlight i u s) < N := by
            rw [← hN]
            show 3 * s.queue.tail.length
                + ((s.workers.set i (WPhase.inFlight u)).map phaseW).sum
              < 3 * s.queue.length + (s.workers.map phaseW).sum
            rw [hqc]
            simp only [phaseW] at hsum
            simp only [List.tail_cons, List.length_cons]
            omega
          obtain ⟨t, hsteps, hex2, hfin2⟩ := ih _ hm (toFlight i u s) rfl
            (inv_step hinv hstep) hp
          exact ⟨t, Relation.ReflTransGen.head hstep hsteps, hex2, hfin2⟩
      | inFlight u =>
        have hstep : Step od ow s (finishW od ow i u s) := Step.finishTask s i u hgi
        have hsum := sum_map_set phaseW s.workers i (WPhase.inFlight u)
          WPhase.atLoop hgi
        have hm : poolMeasure (finishW od ow i u s) < N := by
          rw [← hN]
          show 3 * s.queue.length
              + ((s.workers.set i WPhase.atLoop).map phaseW).sum
            < 3 * s.queue.length + (s.workers.map phaseW).sum
          simp only [phaseW] at hsum
          omega
        obtain ⟨t, hsteps, hex2, hfin2⟩ := ih _ hm (finishW od ow i u s) rfl
          (inv_step hinv hstep) hp
        exact ⟨t, Relation.ReflTransGen.head hstep hsteps, hex2, hfin2⟩
      | exited => simp [isLive] at hlive

/-! ### Behaviour after `stop()` -/

/-- A worker that may still pop or finish one task: it is past the outer
stop test (`postCheck`) or holding a task (`inFlight`). -/
def isBusy : WPhase → Bool
  | .postCheck => true
  | .inFlight _ => true
  | _ => false

theorem stop_persists {od ow : String → Status} {s t : Pool}
    (h : Step od ow s t) (hs : s.stopped = true) : t.stopped = true := by
  cases h <;> first | exact hs | rfl

theorem phi_step {od ow : String → Status} {s t : Pool} (h : Step od ow s t)
    (hs : s.stopped = true) :
    t.checked + t.workers.countP isBusy ≤ s.checked + s.workers.countP isBusy := by
  cases h with
  | checkStopFalse i hw hcs => rw [hs] at hcs; simp at hcs
  | checkStopTrue i hw hcs =>
    have h1 := countP_set_phase isBusy s.workers i WPhase.atLoop WPhase.exited hw
    simp [isBusy] at h1
    show s.checked + (s.workers.set i WPhase.exited).countP isBusy
      ≤ s.checked + s.workers.countP isBusy
    omega
  | popTask i u q hw hp hq2 =>
    have h1 := countP_set_phase isBusy s.workers i WPhase.postCheck
      (WPhase.inFlight u) hw
    simp [isBusy] at h1
    show s.checked + (s.workers.set i (WPhase.inFlight u)).countP isBusy
      ≤ s.checked + s.workers.countP isBusy
    omega
  | popEmpty i hw hp hq2 =>
    have h1 := countP_set_phase isBusy s.workers i WPhase.postCheck
      WPhase.exited hw
    simp [isBusy] at h1
    show s.checked + (s.workers.set i WPhase.exited).countP isBusy
      ≤ s.checked + s.workers.countP isBusy
    omega
  | finishTask i u hw =>
    have h1 := countP_set_phase isBusy s.workers i (WPhase.inFlight u)
      WPhase.atLoop hw
    simp [isBusy] at h1
    show s.checked + 1 + (s.workers.set i WPhase.atLoop).countP isBusy
      ≤ s.checked + s.workers.countP isBusy
    omega
  | ctlStop => exact Nat.le_refl _
  | ctlPause => exact Nat.le_refl _
  | ctlResume => exact Nat.le_refl _

theorem phi_steps {od ow : String → Status} {s t : Pool} (h : Steps od ow s t)
    (hs : s.stopped = true) :
    t.checked + t.workers.countP isBusy ≤ s.checked + s.workers.countP isBusy
      ∧ t.stopped = true := by
  have h2 : Relation.ReflTransGen (Step od ow) s t := h
  clear h
  induction h2 with
  | refl => exact ⟨Nat.le_refl _, hs⟩
  | tail _ h1 ih => exact ⟨le_trans (phi_step h1 ih.2) ih.1, stop_persists h1 ih.2⟩

/-! ### Sample oracles, tasks and modes used in concrete runs -/

def oraUnknown : String → Status := fun _ => Status.unknown

def oraError : String → Status := fun _ => Status.error

def oraOk : String → Status := fun _ => Status.ok

def urlA : String := "a"

def urlB : String := "b"

def modeBad : String := "tiktok"

/-! ### Claim theorems for the worker pool -/

/-- Claim C2, counterexample to the claim as stated: a run in which `stop()`
is called before the single worker pops anything ends with the completion
event emitted while `checked = 0 < 1 = total`, so `checked = total exactly
when onFinished fires` fails on the code. -/
theorem claim_C2_counterexample :
    Steps oraUnknown oraUnknown (start poolInit ([urlA]) 1 modeDouyin)
      (exitW 0 (stopStep (start poolInit ([urlA]) 1 modeDouyin))) ∧
    (exitW 0 (stopStep (start poolInit ([urlA]) 1 modeDouyin))).finishedEmits = 1 ∧
    (exitW 0 (stopStep (start poolInit ([urlA]) 1 modeDouyin))).checked = 0 ∧
    (exitW 0 (stopStep (start poolInit ([urlA]) 1 modeDouyin))).total = 1 := by
  refine ⟨?_, rfl, rfl, rfl⟩
  show Relation.ReflTransGen (Step oraUnknown oraUnknown) _ _
  exact Relation.ReflTransGen.head (Step.ctlStop _)
    (Relation.ReflTransGen.head (Step.checkStopTrue _ 0 rfl rfl)
      Relation.ReflTransGen.refl)

/-- Claim C2, amended: in every reachable state of a run the counters
satisfy `checked ≤ total` and `normal + blocked ≤ checked`, and so does
every emitted stats snapshot; `checked` is non-decreasing along every step
sequence; and in a run during which `stop()` is never called, whenever the
completion event has been emitted, `checked = total`. -/
theorem claim_C2_amended :
    (∀ (od ow : String → Status) (s0 : Pool) (urls : List String) (n : Nat)
        (m : String) (s : Pool), 1 ≤ n → Steps od ow (start s0 urls n m) s →
        (s.checked ≤ s.total ∧ s.normal + s.blocked ≤ s.checked) ∧
        (∀ x ∈ s.statsLog, x.2.1 ≤ x.1 ∧ x.2.2.1 + x.2.2.2 ≤ x.2.1)) ∧
    (∀ (od ow : String → Status) (a b : Pool), Steps od ow a b →
        a.checked ≤ b.checked) ∧
    (∀ (od ow : String → Status) (s0 : Pool) (urls : List String) (n : Nat)
        (m : String) (s : Pool), 1 ≤ n →
        StepsNoStop od ow (start s0 urls n m) s →
        s.finishedEmits = 1 → s.checked = s.total) := by
  refine ⟨?_, ?_, ?_⟩
  · intro od ow s0 urls n m s hn h
    have hinv := inv_reachable hn h
    refine ⟨hinv.bounds, ?_⟩
    intro x hx
    exact (hinv.slog_ok x hx).2
  · intro od ow a b h
    exact checked_le_steps h
  · intro od ow s0 urls n m s hn h hfin
    have hinv := inv_reachable hn (steps_of_noStop h)
    have hns := nsinv_mono h (nsinv_start s0 urls n m hn)
    have hfe := hinv.fin_eq
    have hact : s.active = 0 := by
      by_cases hz : s.active = 0
      · exact hz
      · rw [if_neg hz] at hfe; omega
    have hqnil := hns.drained hact
    have hfl : inFlightL s.workers = [] :=
      inFlightL_eq_nil_of_exited (by rw [← hinv.active_eq]; exact hact)
    obtain ⟨k, hk, hq, hc, _, _, _⟩ := hinv.progress
    have hkl : urls.length ≤ k := by
      rw [hqnil] at hq
      exact List.drop_eq_nil_iff_le.1 hq.symm
    rw [hinv.total_eq]
    rw [hfl] at hc
    simp at hc
    omega

/-- Witness for the amended C2 at a concrete reachable state. -/
theorem claim_C2_amended_witness :
    ((start poolInit ([urlA]) 1 modeDouyin).checked
        ≤ (start poolInit ([urlA]) 1 modeDouyin).total ∧
      (start poolInit ([urlA]) 1 modeDouyin).normal
          + (start poolInit ([urlA]) 1 modeDouyin).blocked
        ≤ (start poolInit ([urlA]) 1 modeDouyin).checked) ∧
    (start poolInit ([urlA]) 1 modeDouyin).checked
      ≤ (finishW oraUnknown oraUnknown 0 urlA
          (toFlight 0 urlA (toPost 0 (start poolInit ([urlA]) 1 modeDouyin)))).checked :=
  ⟨(claim_C2_amended.1 oraUnknown oraUnknown poolInit ([urlA]) 1 modeDouyin
      (start poolInit ([urlA]) 1 modeDouyin) (by omega)
      Relation.ReflTransGen.refl).1,
   claim_C2_amended.2.1 oraUnknown oraUnknown _ _
     (Relation.ReflTransGen.head (Step.checkStopFalse _ 0 rfl rfl)
       (Relation.ReflTransGen.head (Step.popTask _ 0 urlA [] rfl (Or.inl rfl) rfl)
         (Relation.ReflTransGen.head (Step.finishTask _ 0 urlA rfl)
           Relation.ReflTransGen.refl)))⟩

/-- Claim C3: in every reachable state of a run started with `n ≥ 1`
workers, the completion event has been emitted at most once, and it has
been emitted exactly when the live-worker counter is zero, i.e. exactly
when every worker has exited (the emitting step is the exit of the worker
that brings the counter to zero); moreover from any reachable non-paused
state the workers always can and do run to a state where all have exited
and the completion event has been emitted once — for every outcome oracle,
in particular when every task yields status `error`. -/
theorem claim_C3 :
    ∀ (od ow : String → Status) (s0 : Pool) (urls : List String) (n : Nat)
      (m : String) (s : Pool), 1 ≤ n → Steps od ow (start s0 urls n m) s →
      (s.finishedEmits = if s.active = 0 then 1 else 0) ∧
      s.finishedEmits ≤ 1 ∧
      (s.finishedEmits = 1 ↔ allExited s) ∧
      (s.paused = false →
        ∃ t, Steps od ow s t ∧ allExited t ∧ t.finishedEmits = 1) := by
  intro od ow s0 urls n m s hn h
  have hinv := inv_reachable hn h
  have hfe := hinv.fin_eq
  refine ⟨hfe, ?_, ?_, ?_⟩
  · by_cases hz : s.active = 0
    · rw [if_pos hz] at hfe; omega
    · rw [if_neg hz] at hfe; omega
  · constructor
    · intro h1
      have hact : s.active = 0 := by
        by_cases hz : s.active = 0
        · exact hz
        · rw [if_neg hz] at hfe; omega
      show s.workers.countP isLive = 0
      rw [← hinv.active_eq]
      exact hact
    · intro hex
      have hact : s.active = 0 := by rw [hinv.active_eq]; exact hex
      rw [hfe, if_pos hact]
  · intro hp
    exact run_to_completion (poolMeasure s) s rfl hinv hp

/-- Witness for C3: the all-error oracle on a one-task run, at the start
state and at the completed state of an explicit two-step schedule. -/
theorem claim_C3_witness :
    ((start poolInit ([urlA]) 1 modeDouyin).finishedEmits
        = if (start poolInit ([urlA]) 1 modeDouyin).active = 0 then 1 else 0) ∧
    ((exitW 0 (toPost 0 (finishW oraError oraError 0 urlA
        (toFlight 0 urlA (toPost 0 (start poolInit ([urlA]) 1 modeDouyin)))))).finishedEmits
      = 1) :=
  ⟨(claim_C3 oraError oraError poolInit ([urlA]) 1 modeDouyin _ (by omega)
      Relation.ReflTransGen.refl).1,
   by
    have h := (claim_C3 oraError oraError poolInit ([urlA]) 1 modeDouyin _
      (by omega)
      (Relation.ReflTransGen.head (Step.checkStopFalse _ 0 rfl rfl)
        (Relation.ReflTransGen.head (Step.popTask _ 0 urlA [] rfl (Or.inl rfl) rfl)
          (Relation.ReflTransGen.head (Step.finishTask _ 0 urlA rfl)
            (Relation.ReflTransGen.head (Step.checkStopFalse _ 0 rfl rfl)
              (Relation.ReflTransGen.head (Step.popEmpty _ 0 rfl (Or.inl rfl) rfl)
                Relation.ReflTransGen.refl)))))).1
    simpa using h⟩

/-- Claim C4, counterexample to the claim as stated: `start` performs no
provider validation; with the unrecognized provider "tiktok" it still
spawns one worker, and a schedule exists in which that worker pops and
processes a task (the per-task `ValueError` is caught and counted as
status error): no fail-fast happens. -/
theorem claim_C4_counterexample :
    (start poolInit ([urlA]) 1 modeBad).workers.length = 1 ∧
    Steps oraUnknown oraUnknown (start poolInit ([urlA]) 1 modeBad)
      (finishW oraUnknown oraUnknown 0 urlA
        (toFlight 0 urlA (toPost 0 (start poolInit ([urlA]) 1 modeBad)))) ∧
    (finishW oraUnknown oraUnknown 0 urlA
        (toFlight 0 urlA (toPost 0 (start poolInit ([urlA]) 1 modeBad)))).checked = 1 ∧
    (finishW oraUnknown oraUnknown 0 urlA
        (toFlight 0 urlA (toPost 0 (start poolInit ([urlA]) 1 modeBad)))).normal = 0 ∧
    (finishW oraUnknown oraUnknown 0 urlA
        (toFlight 0 urlA (toPost 0 (start poolInit ([urlA]) 1 modeBad)))).blocked = 0 := by
  refine ⟨rfl, ?_, by decide, by decide, by decide⟩
  show Relation.ReflTransGen (Step oraUnknown oraUnknown) _ _
  exact Relation.ReflTransGen.head (Step.checkStopFalse _ 0 rfl rfl)
    (Relation.ReflTransGen.head (Step.popTask _ 0 urlA [] rfl (Or.inl rfl) rfl)
      (Relation.ReflTransGen.head (Step.finishTask _ 0 urlA rfl)
        Relation.ReflTransGen.refl))

/-- Claim C4, amended: `start` spawns its workers for any provider string
without validation; under an unrecognized provider every processed task is
classified with status `error` (the raised `ValueError` is caught per
task), so `normal` and `blocked` stay `0` in every reachable state, and the
run proceeds instead of failing fast. -/
theorem claim_C4_amended :
    ∀ (od ow : String → Status) (s0 : Pool) (urls : List String) (n : Nat)
      (m : String) (s : Pool),
      (start s0 urls n m).workers.length = n ∧
      (m ≠ modeDouyin → m ≠ modeWeibo → 1 ≤ n →
        Steps od ow (start s0 urls n m) s →
        s.normal = 0 ∧ s.blocked = 0) := by
  intro od ow s0 urls n m s
  constructor
  · exact List.length_replicate n WPhase.atLoop
  · intro hm1 hm2 hn h
    have hinv := inv_reachable hn h
    obtain ⟨k, hk, hq, hc, hn2, hb2, hob⟩ := hinv.progress
    have hz : ∀ (l : List String) (st : Status),
        countSt (dispatch od ow m) st l
          = l.countP (fun u => decide (Status.error = st)) := by
      intro l st
      rw [countSt]
      apply List.countP_congr
      intro u _
      simp [dispatch, hm1, hm2]
    rw [hz, hz] at hn2
    rw [hz, hz] at hb2
    simp at hn2 hb2
    omega

/-- Witness for the amended C4 on the concrete invalid provider run. -/
theorem claim_C4_amended_witness :
    (start poolInit ([urlA]) 1 modeBad).workers.length = 1 ∧
    (finishW oraUnknown oraUnknown 0 urlA
        (toFlight 0 urlA (toPost 0 (start poolInit ([urlA]) 1 modeBad)))).normal = 0 :=
  ⟨(claim_C4_amended oraUnknown oraUnknown poolInit ([urlA]) 1 modeBad
      (start poolInit ([urlA]) 1 modeBad)).1,
   ((claim_C4_amended oraUnknown oraUnknown poolInit ([urlA]) 1 modeBad _).2
      (by decide) (by decide) (by omega)
      (Relation.ReflTransGen.head (Step.checkStopFalse _ 0 rfl rfl)
        (Relation.ReflTransGen.head (Step.popTask _ 0 urlA [] rfl (Or.inl rfl) rfl)
          (Relation.ReflTransGen.head (Step.finishTask _ 0 urlA rfl)
            Relation.ReflTransGen.refl)))).1⟩

/-- Claim C5, counterexample to the claim as stated: the worker loop pops
after the pause wait without re-testing the stop flag, so a worker that has
already passed the outer stop test when `stop()` arrives pops and
classifies one task that was still queued at stop time; `checked` rises
from 0 to 1 after stop although nothing was in flight at stop time. -/
theorem claim_C5_counterexample :
    Steps oraUnknown oraUnknown (start poolInit ([urlA, urlB]) 1 modeDouyin)
      (stopStep (toPost 0 (start poolInit ([urlA, urlB]) 1 modeDouyin))) ∧
    (stopStep (toPost 0 (start poolInit ([urlA, urlB]) 1 modeDouyin))).stopped = true ∧
    (stopStep (toPost 0 (start poolInit ([urlA, urlB]) 1 modeDouyin))).queue
      = [urlA, urlB] ∧
    inFlightL (stopStep (toPost 0
      (start poolInit ([urlA, urlB]) 1 modeDouyin))).workers = [] ∧
    (stopStep (toPost 0 (start poolInit ([urlA, urlB]) 1 modeDouyin))).checked = 0 ∧
    Steps oraUnknown oraUnknown
      (stopStep (toPost 0 (start poolInit ([urlA, urlB]) 1 modeDouyin)))
      (finishW oraUnknown oraUnknown 0 urlA
        (toFlight 0 urlA (stopStep (toPost 0
          (start poolInit ([urlA, urlB]) 1 modeDouyin))))) ∧
    (finishW oraUnknown oraUnknown 0 urlA
        (toFlight 0 urlA (stopStep (toPost 0
          (start poolInit ([urlA, urlB]) 1 modeDouyin))))).checked = 1 := by
  refine ⟨?_, rfl, rfl, rfl, rfl, ?_, by decide⟩
  · show Relation.ReflTransGen (Step oraUnknown oraUnknown) _ _
    exact Relation.ReflTransGen.head (Step.checkStopFalse _ 0 rfl rfl)
      (Relation.ReflTransGen.head (Step.ctlStop _) Relation.ReflTransGen.refl)
  · show Relation.ReflTransGen (Step oraUnknown oraUnknown) _ _
    exact Relation.ReflTransGen.head (Step.popTask _ 0 urlA [urlB] rfl (Or.inr rfl) rfl)
      (Relation.ReflTransGen.head (Step.finishTask _ 0 urlA rfl)
        Relation.ReflTransGen.refl)

/-- Claim C5, amended: once the stop flag is set it stays set, and from any
state with the flag set, `checked` can rise by at most the number of
workers that are currently past the stop test or in flight (each such
worker completes at most one further task before exiting; workers at the
loop top pop nothing more). -/
theorem claim_C5_amended :
    ∀ (od ow : String → Status) (s s2 : Pool), s.stopped = true →
      Steps od ow s s2 →
      s2.stopped = true ∧
      s2.checked ≤ s.checked + s.workers.countP isBusy := by
  intro od ow s s2 hs h
  have hphi := phi_steps h hs
  exact ⟨hphi.2, le_trans (Nat.le_add_right _ _) hphi.1⟩

/-- Witness for the amended C5 on the concrete post-stop schedule. -/
theorem claim_C5_witness :
    (finishW oraUnknown oraUnknown 0 urlA
        (toFlight 0 urlA (stopStep (toPost 0
          (start poolInit ([urlA, urlB]) 1 modeDouyin))))).checked
      ≤ (stopStep (toPost 0 (start poolInit ([urlA, urlB]) 1 modeDouyin))).checked
        + (stopStep (toPost 0
            (start poolInit ([urlA, urlB]) 1 modeDouyin))).workers.countP isBusy :=
  (claim_C5_amended oraUnknown oraUnknown
    (stopStep (toPost 0 (start poolInit ([urlA, urlB]) 1 modeDouyin)))
    (finishW oraUnknown oraUnknown 0 urlA
      (toFlight 0 urlA (stopStep (toPost 0
        (start poolInit ([urlA, urlB]) 1 modeDouyin))))) rfl
    (Relation.ReflTransGen.head (Step.popTask _ 0 urlA [urlB] rfl (Or.inr rfl) rfl)
      (Relation.ReflTransGen.head (Step.finishTask _ 0 urlA rfl)
        Relation.ReflTransGen.refl))).2

/-- Claim C7: every call to `start` resets the pool state — `total` becomes
the task count, the three other counters 0, both control flags false — and
replaces the queue contents by the given tasks in order, spawning exactly
`concurrency` workers (all at the loop top) with the live counter equal to
the worker count, whatever the previous state was. -/
theorem claim_C7 (s0 : Pool) (urls : List String) (n : Nat) (m : String) :
    (start s0 urls n m).total = urls.length ∧
    (start s0 urls n m).checked = 0 ∧
    (start s0 urls n m).normal = 0 ∧
    (start s0 urls n m).blocked = 0 ∧
    (start s0 urls n m).stopped = false ∧
    (start s0 urls n m).paused = false ∧
    (start s0 urls n m).queue = urls ∧
    (start s0 urls n m).workers = List.replicate n WPhase.atLoop ∧
    (start s0 urls n m).workers.length = n ∧
    (start s0 urls n m).active = n :=
  ⟨rfl, rfl, rfl, rfl, rfl, rfl, rfl, rfl,
    List.length_replicate n WPhase.atLoop, rfl⟩

/-- Claim C9: starting with an empty task list and `n ≥ 1` workers, every
reachable state has all four counters
`(total, checked, normal, blocked) = (0, 0, 0, 0)`, no per-task result or
stats event has been emitted, no worker ever holds a task, the completion
event is emitted at most once — exactly once as soon as all workers have
exited — and from any non-paused reachable state the workers do reach that
completed state. -/
theorem claim_C9 :
    ∀ (od ow : String → Status) (s0 : Pool) (n : Nat) (m : String) (s : Pool),
      1 ≤ n → Steps od ow (start s0 ([]) n m) s →
      s.total = 0 ∧ s.checked = 0 ∧ s.normal = 0 ∧ s.blocked = 0 ∧
      s.resultEmits = 0 ∧ s.statsLog = [] ∧ s.queue = [] ∧
      (∀ w ∈ s.workers, taskOf w = none) ∧
      s.finishedEmits ≤ 1 ∧ (allExited s → s.finishedEmits = 1) ∧
      (s.paused = false →
        ∃ t, Steps od ow s t ∧ allExited t ∧ t.finishedEmits = 1) := by
  intro od ow s0 n m s hn h
  have hinv := inv_reachable hn h
  obtain ⟨k, hk, hq, hc, hn2, hb2, hob⟩ := hinv.progress
  simp only [List.length_nil] at hk
  have hk0 : k = 0 := by omega
  subst hk0
  have htot : s.total = 0 := hinv.total_eq
  have hchk : s.checked = 0 := by omega
  have hlen0 : (inFlightL s.workers).length = 0 := by omega
  have hfl : inFlightL s.workers = [] := List.length_eq_zero.1 hlen0
  have hnor : s.normal = 0 := by
    rw [hfl] at hn2
    simpa [countSt] using hn2
  have hblo : s.blocked = 0 := by
    rw [hfl] at hb2
    simpa [countSt] using hb2
  have hfe := hinv.fin_eq
  refine ⟨htot, hchk, hnor, hblo, ?_, ?_, ?_, ?_, ?_, ?_, ?_⟩
  · rw [hinv.res_eq]; exact hchk
  · have := hinv.slog_len
    rw [hchk] at this
    exact List.length_eq_zero.1 this
  · simpa using hq
  · intro w hw
    exact List.filterMap_eq_nil.1 hfl w hw
  · by_cases hz : s.active = 0
    · rw [if_pos hz] at hfe; omega
    · rw [if_neg hz] at hfe; omega
  · intro hex
    have hact : s.active = 0 := by rw [hinv.active_eq]; exact hex
    rw [hfe, if_pos hact]
  · intro hp
    exact run_to_completion (poolMeasure s) s rfl hinv hp

/-- Witness for C9 on the concrete empty-list run with one worker. -/
theorem claim_C9_witness :
    (exitW 0 (toPost 0 (start poolInit ([]) 1 modeDouyin))).checked = 0 ∧
    (exitW 0 (toPost 0 (start poolInit ([]) 1 modeDouyin))).resultEmits = 0 ∧
    (exitW 0 (toPost 0 (start poolInit ([]) 1 modeDouyin))).finishedEmits = 1 := by
  have h := claim_C9 oraUnknown oraUnknown poolInit 1 modeDouyin
    (exitW 0 (toPost 0 (start poolInit ([]) 1 modeDouyin))) (by omega)
    (Relation.ReflTransGen.head (Step.checkStopFalse _ 0 rfl rfl)
      (Relation.ReflTransGen.head (Step.popEmpty _ 0 rfl (Or.inl rfl) rfl)
        Relation.ReflTransGen.refl))
  exact ⟨h.2.1, h.2.2.2.2.1, h.2.2.2.2.2.2.2.2.2.1 rfl⟩

/-- Claim C8: for the same task list and the same per-task outcomes, any
two runs that are never stopped or paused and that complete (all workers
exited), with any worker counts `≥ 1` — in particular 1 and 5 — end with
identical `(total, checked, normal, blocked)` tuples, whatever the
interleaving. -/
theorem claim_C8 :
    ∀ (od ow : String → Status) (s0 s0' : Pool) (urls : List String)
      (n1 n2 : Nat) (m : String) (s1 s2 : Pool), 1 ≤ n1 → 1 ≤ n2 →
      StepsNoCtl od ow (start s0 urls n1 m) s1 → allExited s1 →
      StepsNoCtl od ow (start s0' urls n2 m) s2 → allExited s2 →
      (s1.total, s1.checked, s1.normal, s1.blocked)
        = (s2.total, s2.checked, s2.normal, s2.blocked) := by
  intro od ow s0 s0' urls n1 n2 m s1 s2 hn1 hn2 h1 hex1 h2 hex2
  obtain ⟨a1, b1, c1, d1⟩ := final_counts hn1 (noStop_of_noCtl h1) hex1
  obtain ⟨a2, b2, c2, d2⟩ := final_counts hn2 (noStop_of_noCtl h2) hex2
  rw [a1, b1, c1, d1, a2, b2, c2, d2]

/-- Witness for C8: one complete run with one worker and one complete run
with five workers on the same one-task list, both fully scheduled. -/
theorem claim_C8_witness :
    ((exitW 0 (toPost 0 (finishW oraOk oraOk 0 urlA (toFlight 0 urlA
        (toPost 0 (start poolInit ([urlA]) 1 modeDouyin)))))).total,
     (exitW 0 (toPost 0 (finishW oraOk oraOk 0 urlA (toFlight 0 urlA
        (toPost 0 (start poolInit ([urlA]) 1 modeDouyin)))))).checked,
     (exitW 0 (toPost 0 (finishW oraOk oraOk 0 urlA (toFlight 0 urlA
        (toPost 0 (start poolInit ([urlA]) 1 modeDouyin)))))).normal,
     (exitW 0 (toPost 0 (finishW oraOk oraOk 0 urlA (toFlight 0 urlA
        (toPost 0 (start poolInit ([urlA]) 1 modeDouyin)))))).blocked)
    = ((exitW 4 (toPost 4 (exitW 3 (toPost 3 (exitW 2 (toPost 2 (exitW 1
          (toPost 1 (exitW 0 (toPost 0 (finishW oraOk oraOk 0 urlA
            (toFlight 0 urlA (toPost 0
              (start poolInit ([urlA]) 5 modeDouyin)))))))))))))).total,
       (exitW 4 (toPost 4 (exitW 3 (toPost 3 (exitW 2 (toPost 2 (exitW 1
          (toPost 1 (exitW 0 (toPost 0 (finishW oraOk oraOk 0 urlA
            (toFlight 0 urlA (toPost 0
              (start poolInit ([urlA]) 5 modeDouyin)))))))))))))).checked,
       (exitW 4 (toPost 4 (exitW 3 (toPost 3 (exitW 2 (toPost 2 (exitW 1
          (toPost 1 (exitW 0 (toPost 0 (finishW oraOk oraOk 0 urlA
            (toFlight 0 urlA (toPost 0
              (start poolInit ([urlA]) 5 modeDouyin)))))))))))))).normal,
       (exitW 4 (toPost 4 (exitW 3 (toPost 3 (exitW 2 (toPost 2 (exitW 1
          (toPost 1 (exitW 0 (toPost 0 (finishW oraOk oraOk 0 urlA
            (toFlight 0 urlA (toPost 0
              (start poolInit ([urlA]) 5 modeDouyin)))))))))))))).blocked) :=
  claim_C8 oraOk oraOk poolInit poolInit ([urlA]) 1 5 modeDouyin
    (exitW 0 (toPost 0 (finishW oraOk oraOk 0 urlA (toFlight 0 urlA
      (toPost 0 (start poolInit ([urlA]) 1 modeDouyin))))))
    (exitW 4 (toPost 4 (exitW 3 (toPost 3 (exitW 2 (toPost 2 (exitW 1
      (toPost 1 (exitW 0 (toPost 0 (finishW oraOk oraOk 0 urlA
        (toFlight 0 urlA (toPost 0
          (start poolInit ([urlA]) 5 modeDouyin))))))))))))))
    (by omega) (by omega)
    (Relation.ReflTransGen.head ⟨Step.checkStopFalse _ 0 rfl rfl, rfl, rfl⟩
      (Relation.ReflTransGen.head
        ⟨Step.popTask _ 0 urlA [] rfl (Or.inl rfl) rfl, rfl, rfl⟩
        (Relation.ReflTransGen.head ⟨Step.finishTask _ 0 urlA rfl, rfl, rfl⟩
          (Relation.ReflTransGen.head ⟨Step.checkStopFalse _ 0 rfl rfl, rfl, rfl⟩
            (Relation.ReflTransGen.head
              ⟨Step.popEmpty _ 0 rfl (Or.inl rfl) rfl, rfl, rfl⟩
              Relation.ReflTransGen.refl)))))
    rfl
    (Relation.ReflTransGen.head ⟨Step.checkStopFalse _ 0 rfl rfl, rfl, rfl⟩
      (Relation.ReflTransGen.head
        ⟨Step.popTask _ 0 urlA [] rfl (Or.inl rfl) rfl, rfl, rfl⟩
        (Relation.ReflTransGen.head ⟨Step.finishTask _ 0 urlA rfl, rfl, rfl⟩
          (Relation.ReflTransGen.head ⟨Step.checkStopFalse _ 0 rfl rfl, rfl, rfl⟩
            (Relation.ReflTransGen.head
              ⟨Step.popEmpty _ 0 rfl (Or.inl rfl) rfl, rfl, rfl⟩
              (Relation.ReflTransGen.head
                ⟨Step.checkStopFalse _ 1 rfl rfl, rfl, rfl⟩
                (Relation.ReflTransGen.head
                  ⟨Step.popEmpty _ 1 rfl (Or.inl rfl) rfl, rfl, rfl⟩
                  (Relation.ReflTransGen.head
                    ⟨Step.checkStopFalse _ 2 rfl rfl, rfl, rfl⟩
                    (Relation.ReflTransGen.head
                      ⟨Step.popEmpty _ 2 rfl (Or.inl rfl) rfl, rfl, rfl⟩
                      (Relation.ReflTransGen.head
                        ⟨Step.checkStopFalse _ 3 rfl rfl, rfl, rfl⟩
                        (Relation.ReflTransGen.head
                          ⟨Step.popEmpty _ 3 rfl (Or.inl rfl) rfl, rfl, rfl⟩
                          (Relation.ReflTransGen.head
                            ⟨Step.checkStopFalse _ 4 rfl rfl, rfl, rfl⟩
                            (Relation.ReflTransGen.head
                              ⟨Step.popEmpty _ 4 rfl (Or.inl rfl) rfl, rfl, rfl⟩
                              Relation.ReflTransGen.refl)))))))))))))
    rfl

/-- Witness for C10 at a concrete match list with an uppercase duplicate. -/
theorem claim_C10_witness :
    extract_domains_from_text (["Foo.COM", "foo.com"])
      = dedupFirstSpec ((["Foo.COM", "foo.com"]).map pyLower) ∧
    Char.isUpper ('f') = false :=
  ⟨(claim_C10 (["Foo.COM", "foo.com"])).1,
   (claim_C10 (["Foo.COM", "foo.com"])).2.2.2 ("foo.com") (by decide)
     ('f') (by decide)⟩

end TTD
